import Mathlib

/-!
Verification of the frame-composition and motion core of the shuriken16
2D tile engine (src/render.rs, src/actor.rs), shallowly embedded in Lean.
Pixels are 16-bit color values modelled as `Nat`; all arithmetic in the
source is on `u16`/`usize`/`isize` and is reproduced exactly (the `u16`
channel operations involved never overflow, so `Nat` arithmetic agrees;
`isize` arithmetic is modelled on `Int` with the matching division and
remainder operators).
-/

/-! ## BlendEngine (src/render.rs, normal_blend .. alpha_blend) -/

/-- Red channel extraction `(color >> 10) & 0x1f`, written inline
throughout render.rs. -/
def chanR (pixel : Nat) : Nat := (pixel >>> 10) &&& 0x1f

/-- Green channel extraction `(color >> 5) & 0x1f`. -/
def chanG (pixel : Nat) : Nat := (pixel >>> 5) &&& 0x1f

/-- Blue channel extraction `color & 0x1f`. -/
def chanB (pixel : Nat) : Nat := pixel &&& 0x1f

/-- `normal_blend` from render.rs: replace the destination with the source. -/
def normal_blend (_pixel color : Nat) : Nat :=
  color

/-- `add_blend` from render.rs: per-5-bit-channel sum saturated at 0x1f. -/
def add_blend (pixel color : Nat) : Nat :=
  let existing_r := chanR pixel
  let existing_g := chanG pixel
  let existing_b := chanB pixel
  let add_r := chanR color
  let add_g := chanG color
  let add_b := chanB color
  let blended_r := if existing_r + add_r > 0x1f then 0x1f else existing_r + add_r
  let blended_g := if existing_g + add_g > 0x1f then 0x1f else existing_g + add_g
  let blended_b := if existing_b + add_b > 0x1f then 0x1f else existing_b + add_b
  (blended_r <<< 10) ||| (blended_g <<< 5) ||| blended_b

/-- `subtract_blend` from render.rs: per-channel existing minus incoming,
floored at 0 by an explicit branch (no wraparound). -/
def subtract_blend (pixel color : Nat) : Nat :=
  let existing_r := chanR pixel
  let existing_g := chanG pixel
  let existing_b := chanB pixel
  let sub_r := chanR color
  let sub_g := chanG color
  let sub_b := chanB color
  let blended_r := if sub_r ≥ existing_r then 0 else existing_r - sub_r
  let blended_g := if sub_g ≥ existing_g then 0 else existing_g - sub_g
  let blended_b := if sub_b ≥ existing_b then 0 else existing_b - sub_b
  (blended_r <<< 10) ||| (blended_g <<< 5) ||| blended_b

/-- `multiply_blend` from render.rs: per-channel product divided by 16
(truncating), saturated at 0x1f after the division. -/
def multiply_blend (pixel color : Nat) : Nat :=
  let existing_r := chanR pixel
  let existing_g := chanG pixel
  let existing_b := chanB pixel
  let add_r := chanR color
  let add_g := chanG color
  let add_b := chanB color
  let blended_r := if (existing_r * add_r) / 16 > 0x1f then 0x1f else (existing_r * add_r) / 16
  let blended_g := if (existing_g * add_g) / 16 > 0x1f then 0x1f else (existing_g * add_g) / 16
  let blended_b := if (existing_b * add_b) / 16 > 0x1f then 0x1f else (existing_b * add_b) / 16
  (blended_r <<< 10) ||| (blended_g <<< 5) ||| blended_b

/-- `alpha_blend` from render.rs: self-blend the incoming color through the
base blend function, then mix its channels with the existing pixel's channels
with weights `16 - alpha` and `alpha`, truncating division by 16. -/
def alpha_blend (pixel color : Nat) (alpha : Nat) (blend : Nat → Nat → Nat) : Nat :=
  let mixed_color := blend color color
  let mixed_r := chanR mixed_color
  let mixed_g := chanG mixed_color
  let mixed_b := chanB mixed_color
  let existing_r := chanR pixel
  let existing_g := chanG pixel
  let existing_b := chanB pixel
  let blended_r := ((mixed_r * (16 - alpha)) + (existing_r * alpha)) / 16
  let blended_g := ((mixed_g * (16 - alpha)) + (existing_g * alpha)) / 16
  let blended_b := ((mixed_b * (16 - alpha)) + (existing_b * alpha)) / 16
  (blended_r <<< 10) ||| (blended_g <<< 5) ||| blended_b

/-- The four blend modes of a map layer (src/map.rs, referenced by render.rs). -/
inductive BlendMode where
  | Normal
  | Add
  | Subtract
  | Multiply
deriving DecidableEq

/-- The raw (non-alpha) blend function for each mode, as selected by the
`layer.blend_mode` match arms in `render_layer_with_renderer`. -/
def blend_mode_raw : BlendMode → (Nat → Nat → Nat)
  | BlendMode.Normal => normal_blend
  | BlendMode.Add => add_blend
  | BlendMode.Subtract => subtract_blend
  | BlendMode.Multiply => multiply_blend

/-- The blend function `render_layer_with_renderer` threads through the
layer compositor: the raw blend when `layer.alpha` is 0, otherwise the
alpha-wrapped blend at that alpha. -/
def layer_blend_fn (mode : BlendMode) (alpha : Nat) : Nat → Nat → Nat :=
  match alpha with
  | 0 => blend_mode_raw mode
  | a => fun pixel color => alpha_blend pixel color a (blend_mode_raw mode)

/-! ### Helper lemmas about packing three 5-bit channels -/

set_option maxHeartbeats 4000000 in
/-- Packing three 5-bit channels and reading them back: for channel values
below 32, the pack is the expected weighted sum and each channel extraction
recovers its input. Checked exhaustively over all 32768 channel triplets. -/
theorem pack_channels : ∀ r < 32, ∀ g < 32, ∀ b < 32,
    (((r <<< 10) ||| (g <<< 5) ||| b) >>> 10) &&& 0x1f = r ∧
    (((r <<< 10) ||| (g <<< 5) ||| b) >>> 5) &&& 0x1f = g ∧
    ((r <<< 10) ||| (g <<< 5) ||| b) &&& 0x1f = b ∧
    (r <<< 10) ||| (g <<< 5) ||| b = r * 1024 + g * 32 + b := by
  decide

theorem and_31_lt (x : Nat) : x &&& 0x1f < 32 :=
  Nat.lt_succ_of_le Nat.and_le_right

theorem chanR_lt (pixel : Nat) : chanR pixel < 32 := and_31_lt _

theorem chanG_lt (pixel : Nat) : chanG pixel < 32 := and_31_lt _

theorem chanB_lt (pixel : Nat) : chanB pixel < 32 := and_31_lt _

theorem chan_pack {r g b : Nat} (hr : r < 32) (hg : g < 32) (hb : b < 32) :
    chanR ((r <<< 10) ||| (g <<< 5) ||| b) = r ∧
    chanG ((r <<< 10) ||| (g <<< 5) ||| b) = g ∧
    chanB ((r <<< 10) ||| (g <<< 5) ||| b) = b := by
  obtain ⟨h1, h2, h3, _⟩ := pack_channels r hr g hg b hb
  exact ⟨h1, h2, h3⟩

theorem pack_lt {r g b : Nat} (hr : r < 32) (hg : g < 32) (hb : b < 32) :
    (r <<< 10) ||| (g <<< 5) ||| b < 32768 := by
  have h := (pack_channels r hr g hg b hb).2.2.2
  omega

theorem add_blend_channels (p c : Nat) :
    chanR (add_blend p c) = min (chanR p + chanR c) 31 ∧
    chanG (add_blend p c) = min (chanG p + chanG c) 31 ∧
    chanB (add_blend p c) = min (chanB p + chanB c) 31 := by
  have hr0 := chanR_lt p; have hr1 := chanR_lt c
  have hg0 := chanG_lt p; have hg1 := chanG_lt c
  have hb0 := chanB_lt p; have hb1 := chanB_lt c
  have hr : (if chanR p + chanR c > 0x1f then 0x1f else chanR p + chanR c) < 32 := by
    split <;> omega
  have hg : (if chanG p + chanG c > 0x1f then 0x1f else chanG p + chanG c) < 32 := by
    split <;> omega
  have hb : (if chanB p + chanB c > 0x1f then 0x1f else chanB p + chanB c) < 32 := by
    split <;> omega
  obtain ⟨e1, e2, e3⟩ := chan_pack hr hg hb
  simp only [add_blend]
  refine ⟨?_, ?_, ?_⟩
  · rw [e1]; split <;> omega
  · rw [e2]; split <;> omega
  · rw [e3]; split <;> omega

theorem subtract_blend_channels (p c : Nat) :
    chanR (subtract_blend p c) = chanR p - chanR c ∧
    chanG (subtract_blend p c) = chanG p - chanG c ∧
    chanB (subtract_blend p c) = chanB p - chanB c := by
  have hr0 := chanR_lt p
  have hg0 := chanG_lt p
  have hb0 := chanB_lt p
  have hr : (if chanR c ≥ chanR p then 0 else chanR p - chanR c) < 32 := by
    split <;> omega
  have hg : (if chanG c ≥ chanG p then 0 else chanG p - chanG c) < 32 := by
    split <;> omega
  have hb : (if chanB c ≥ chanB p then 0 else chanB p - chanB c) < 32 := by
    split <;> omega
  obtain ⟨e1, e2, e3⟩ := chan_pack hr hg hb
  simp only [subtract_blend]
  refine ⟨?_, ?_, ?_⟩
  · rw [e1]; split <;> omega
  · rw [e2]; split <;> omega
  · rw [e3]; split <;> omega

theorem multiply_blend_channels (p c : Nat) :
    chanR (multiply_blend p c) = min (chanR p * chanR c / 16) 31 ∧
    chanG (multiply_blend p c) = min (chanG p * chanG c / 16) 31 ∧
    chanB (multiply_blend p c) = min (chanB p * chanB c / 16) 31 := by
  have hr : (if chanR p * chanR c / 16 > 0x1f then 0x1f else chanR p * chanR c / 16) < 32 := by
    split <;> omega
  have hg : (if chanG p * chanG c / 16 > 0x1f then 0x1f else chanG p * chanG c / 16) < 32 := by
    split <;> omega
  have hb : (if chanB p * chanB c / 16 > 0x1f then 0x1f else chanB p * chanB c / 16) < 32 := by
    split <;> omega
  obtain ⟨e1, e2, e3⟩ := chan_pack hr hg hb
  simp only [multiply_blend]
  refine ⟨?_, ?_, ?_⟩
  · rw [e1]; split <;> omega
  · rw [e2]; split <;> omega
  · rw [e3]; split <;> omega

theorem alpha_mix_lt {m e a : Nat} (hm : m < 32) (he : e < 32) (ha : a < 16) :
    (m * (16 - a) + e * a) / 16 < 32 := by
  have h1 : m * (16 - a) ≤ 31 * (16 - a) := Nat.mul_le_mul_right _ (by omega)
  have h2 : e * a ≤ 31 * a := Nat.mul_le_mul_right _ (by omega)
  have h3 : 31 * (16 - a) + 31 * a = 31 * 16 := by
    rw [← Nat.mul_add]; congr 1; omega
  have : m * (16 - a) + e * a ≤ 31 * 16 := by omega
  omega

theorem alpha_blend_channels (p c a : Nat) (blend : Nat → Nat → Nat) (ha : a < 16) :
    chanR (alpha_blend p c a blend) = (chanR (blend c c) * (16 - a) + chanR p * a) / 16 ∧
    chanG (alpha_blend p c a blend) = (chanG (blend c c) * (16 - a) + chanG p * a) / 16 ∧
    chanB (alpha_blend p c a blend) = (chanB (blend c c) * (16 - a) + chanB p * a) / 16 := by
  have hr := alpha_mix_lt (chanR_lt (blend c c)) (chanR_lt p) ha
  have hg := alpha_mix_lt (chanG_lt (blend c c)) (chanG_lt p) ha
  have hb := alpha_mix_lt (chanB_lt (blend c c)) (chanB_lt p) ha
  obtain ⟨e1, e2, e3⟩ := chan_pack hr hg hb
  simp only [alpha_blend]
  exact ⟨e1, e2, e3⟩

/-! ## Claim theorems for the BlendEngine -/

/-- C3: For all 5-bit channel values a (existing) and b (incoming), the Add
blend yields min(a+b, 31) per channel, the Subtract blend yields max(a-b, 0)
per channel with no underflow, and the Multiply blend yields min((a*b)/16, 31)
per channel with integer truncation, so channels a = 16, b = 16 give 16. -/
theorem blend_channel_math (p c : Nat) :
    (chanR (add_blend p c) = min (chanR p + chanR c) 31 ∧
     chanG (add_blend p c) = min (chanG p + chanG c) 31 ∧
     chanB (add_blend p c) = min (chanB p + chanB c) 31) ∧
    ((chanR (subtract_blend p c) : Int) = max ((chanR p : Int) - (chanR c : Int)) 0 ∧
     (chanG (subtract_blend p c) : Int) = max ((chanG p : Int) - (chanG c : Int)) 0 ∧
     (chanB (subtract_blend p c) : Int) = max ((chanB p : Int) - (chanB c : Int)) 0) ∧
    (chanR (multiply_blend p c) = min (chanR p * chanR c / 16) 31 ∧
     chanG (multiply_blend p c) = min (chanG p * chanG c / 16) 31 ∧
     chanB (multiply_blend p c) = min (chanB p * chanB c / 16) 31) ∧
    chanR (multiply_blend ((16 <<< 10) ||| (16 <<< 5) ||| 16)
      ((16 <<< 10) ||| (16 <<< 5) ||| 16)) = 16 := by
  obtain ⟨s1, s2, s3⟩ := subtract_blend_channels p c
  refine ⟨add_blend_channels p c, ⟨?_, ?_, ?_⟩, multiply_blend_channels p c, by decide⟩
  · rw [s1]; omega
  · rw [s2]; omega
  · rw [s3]; omega

/-- C9: Add, Subtract, Multiply and the alpha-wrapped blends always clear
bit 15 (the transparency flag) of the result, for every existing pixel and
incoming color, because they rebuild the pixel from the three 5-bit channels;
Normal blend copies the incoming 16-bit value verbatim and can propagate
bit 15 into the destination. -/
theorem blend_clears_transparency_bit :
    (∀ p c : Nat, (add_blend p c).testBit 15 = false) ∧
    (∀ p c : Nat, (subtract_blend p c).testBit 15 = false) ∧
    (∀ p c : Nat, (multiply_blend p c).testBit 15 = false) ∧
    (∀ (p c a : Nat) (blend : Nat → Nat → Nat), a < 16 →
      (alpha_blend p c a blend).testBit 15 = false) ∧
    (∀ p c : Nat, normal_blend p c = c) ∧
    (normal_blend 0 0x8000).testBit 15 = true := by
  have key : ∀ x : Nat, x < 32768 → x.testBit 15 = false := by
    intro x hx
    exact Nat.testBit_eq_false_of_lt hx
  refine ⟨?_, ?_, ?_, ?_, fun _ _ => rfl, by decide⟩
  · intro p c
    apply key
    simp only [add_blend]
    exact pack_lt (by have h1 := chanR_lt p; have h2 := chanR_lt c; split <;> omega)
      (by have h1 := chanG_lt p; have h2 := chanG_lt c; split <;> omega)
      (by have h1 := chanB_lt p; have h2 := chanB_lt c; split <;> omega)
  · intro p c
    apply key
    simp only [subtract_blend]
    exact pack_lt (by split <;> have := chanR_lt p <;> omega)
      (by split <;> have := chanG_lt p <;> omega)
      (by split <;> have := chanB_lt p <;> omega)
  · intro p c
    apply key
    simp only [multiply_blend]
    exact pack_lt (by split <;> omega) (by split <;> omega) (by split <;> omega)
  · intro p c a blend ha
    apply key
    simp only [alpha_blend]
    exact pack_lt (alpha_mix_lt (chanR_lt _) (chanR_lt _) ha)
      (alpha_mix_lt (chanG_lt _) (chanG_lt _) ha)
      (alpha_mix_lt (chanB_lt _) (chanB_lt _) ha)

/-- Witness for C9: concrete instantiation of the alpha-wrapped conjunct at
alpha 5 with the Normal base blend and an incoming color with bit 15 set. -/
theorem blend_clears_transparency_bit_witness :
    (alpha_blend 3 0x8000 5 normal_blend).testBit 15 = false :=
  blend_clears_transparency_bit.2.2.2.1 3 0x8000 5 normal_blend (by decide)

/-- C2: the alpha-weighted wrapper first self-blends the incoming color
through the base blend, then mixes per channel with weights 16 - a and a,
truncating division by 16; and the compositor selects the raw blend function
when the layer alpha is 0, bypassing the wrapper, so the layer blend at
alpha 0 is exactly the raw blend function. -/
theorem alpha_wrapper_and_zero_bypass :
    (∀ (p c a : Nat) (blend : Nat → Nat → Nat), a < 16 →
      chanR (alpha_blend p c a blend) = (chanR (blend c c) * (16 - a) + chanR p * a) / 16 ∧
      chanG (alpha_blend p c a blend) = (chanG (blend c c) * (16 - a) + chanG p * a) / 16 ∧
      chanB (alpha_blend p c a blend) = (chanB (blend c c) * (16 - a) + chanB p * a) / 16) ∧
    (∀ mode : BlendMode, layer_blend_fn mode 0 = blend_mode_raw mode) :=
  ⟨fun p c a blend ha => alpha_blend_channels p c a blend ha, fun _ => rfl⟩

/-- Witness for C2: the alpha-wrapper channel formula evaluated at concrete
pixels with alpha 4 and the Add base blend. -/
theorem alpha_wrapper_and_zero_bypass_witness :
    chanR (alpha_blend 0x1234 0x0567 4 add_blend) =
      (chanR (add_blend 0x0567 0x0567) * (16 - 4) + chanR 0x1234 * 4) / 16 :=
  (alpha_wrapper_and_zero_bypass.1 0x1234 0x0567 4 add_blend (by decide)).1

/-! ## TileRasterizer (src/render.rs, render_tile_4bit / 8bit / 16bit)

The render buffer row slice is modelled as a list of pixels; the packed
tile data as a list of bytes. The Rust functions mutate `render_buf[i]`
for `i` in `0..width`, each iteration reading and writing only position
`i`, so the loop is modelled as an index-aware map over the row. -/

/-- A palette (src/tile.rs): a list of 16-bit color entries. -/
structure Palette where
  entries : List Nat

/-- A palette together with a starting offset (src/tile.rs,
`PaletteWithOffset`). -/
structure PaletteWithOffset where
  palette : Palette
  offset : Nat

/-- Palette lookup as performed by the rasterizers:
`palette.entries[offset..][color_index]`. -/
def palette_entry (pal : PaletteWithOffset) (color_index : Nat) : Nat :=
  pal.palette.entries.getD (pal.offset + color_index) 0

/-- The 4-bit color index of pixel x in a packed row:
`(tile_data[x / 2] >> (4 * (x & 1))) & 0xf` (low nibble even x, high odd x). -/
def color_index_4bit (tile_data : List Nat) (x : Nat) : Nat :=
  ((tile_data.getD (x / 2) 0) >>> (4 * (x % 2))) &&& 0xf

/-- The 8-bit color index of pixel x in a packed row: `tile_data[x]`. -/
def color_index_8bit (tile_data : List Nat) (x : Nat) : Nat :=
  tile_data.getD x 0

/-- The 16-bit direct color of pixel x: little-endian read of
`tile_data[x * 2 .. (x + 1) * 2]`. -/
def color_16bit (tile_data : List Nat) (x : Nat) : Nat :=
  tile_data.getD (x * 2) 0 + 256 * (tile_data.getD (x * 2 + 1) 0)

/-- Index-aware map over a row of pixels, used to model the rasterizer
loops (each iteration touches only its own position). -/
def map_with_index (f : Nat → Nat → Nat) : Nat → List Nat → List Nat
  | _, [] => []
  | i, px :: rest => f i px :: map_with_index f (i + 1) rest

/-- `render_tile_4bit` from render.rs: returns immediately when there is no
palette; otherwise blends the palette color of every pixel in `[0, width)`
whose 4-bit color index is nonzero into the row. -/
def render_tile_4bit (render_buf tile_data : List Nat) (left width : Nat)
    (palette : Option PaletteWithOffset) (blend : Nat → Nat → Nat) : List Nat :=
  match palette with
  | none => render_buf
  | some pal =>
    map_with_index (fun i px =>
      if i < width then
        let x := left + i
        let color_index := color_index_4bit tile_data x
        if color_index ≠ 0 then blend px (palette_entry pal color_index) else px
      else px) 0 render_buf

/-- `render_tile_8bit` from render.rs: same as the 4-bit variant with one
byte per pixel. -/
def render_tile_8bit (render_buf tile_data : List Nat) (left width : Nat)
    (palette : Option PaletteWithOffset) (blend : Nat → Nat → Nat) : List Nat :=
  match palette with
  | none => render_buf
  | some pal =>
    map_with_index (fun i px =>
      if i < width then
        let x := left + i
        let color_index := color_index_8bit tile_data x
        if color_index ≠ 0 then blend px (palette_entry pal color_index) else px
      else px) 0 render_buf

/-- `render_tile_16bit` from render.rs: reads each pixel as a little-endian
16-bit word, ignores the palette, and blends every pixel whose top bit
(0x8000) is clear. -/
def render_tile_16bit (render_buf tile_data : List Nat) (left width : Nat)
    (_palette : Option PaletteWithOffset) (blend : Nat → Nat → Nat) : List Nat :=
  map_with_index (fun i px =>
    if i < width then
      let color := color_16bit tile_data (left + i)
      if color &&& 0x8000 = 0 then blend px color else px
    else px) 0 render_buf

theorem map_with_index_getD (f : Nat → Nat → Nat) (n : Nat) (l : List Nat)
    (i : Nat) (hi : i < l.length) :
    (map_with_index f n l).getD i 0 = f (n + i) (l.getD i 0) := by
  induction l generalizing n i with
  | nil => simp at hi
  | cons px rest ih =>
    cases i with
    | zero => simp [map_with_index]
    | succ j =>
      simp only [map_with_index, List.getD_cons_succ]
      rw [ih (n + 1) j (by simpa using hi)]
      congr 1
      omega

theorem render_tile_4bit_getD (buf data : List Nat) (left width : Nat)
    (pal : PaletteWithOffset) (blend : Nat → Nat → Nat) (i : Nat) (hi : i < buf.length) :
    (render_tile_4bit buf data left width (some pal) blend).getD i 0 =
      if i < width then
        (if color_index_4bit data (left + i) ≠ 0 then
          blend (buf.getD i 0) (palette_entry pal (color_index_4bit data (left + i)))
        else buf.getD i 0)
      else buf.getD i 0 := by
  simp only [render_tile_4bit]
  rw [map_with_index_getD _ _ _ _ hi]
  simp

theorem render_tile_8bit_getD (buf data : List Nat) (left width : Nat)
    (pal : PaletteWithOffset) (blend : Nat → Nat → Nat) (i : Nat) (hi : i < buf.length) :
    (render_tile_8bit buf data left width (some pal) blend).getD i 0 =
      if i < width then
        (if color_index_8bit data (left + i) ≠ 0 then
          blend (buf.getD i 0) (palette_entry pal (color_index_8bit data (left + i)))
        else buf.getD i 0)
      else buf.getD i 0 := by
  simp only [render_tile_8bit]
  rw [map_with_index_getD _ _ _ _ hi]
  simp

theorem render_tile_16bit_getD (buf data : List Nat) (left width : Nat)
    (pal : Option PaletteWithOffset) (blend : Nat → Nat → Nat) (i : Nat) (hi : i < buf.length) :
    (render_tile_16bit buf data left width pal blend).getD i 0 =
      if i < width then
        (if color_16bit data (left + i) &&& 0x8000 = 0 then
          blend (buf.getD i 0) (color_16bit data (left + i))
        else buf.getD i 0)
      else buf.getD i 0 := by
  simp only [render_tile_16bit]
  rw [map_with_index_getD _ _ _ _ hi]
  simp

/-- C8: transparent source pixels leave the destination unchanged: the 4-bit
and 8-bit rasterizers never write at positions whose palette index is 0, and
the 16-bit rasterizer skips any source pixel whose top bit is set; every
other position in the run receives the blend of its existing value with the
source color. -/
theorem rasterizer_transparency (buf data : List Nat) (left width : Nat)
    (pal : PaletteWithOffset) (blend : Nat → Nat → Nat) (i : Nat) (hi : i < buf.length) :
    (color_index_4bit data (left + i) = 0 →
      (render_tile_4bit buf data left width (some pal) blend).getD i 0 = buf.getD i 0) ∧
    (i < width → color_index_4bit data (left + i) ≠ 0 →
      (render_tile_4bit buf data left width (some pal) blend).getD i 0 =
        blend (buf.getD i 0) (palette_entry pal (color_index_4bit data (left + i)))) ∧
    (color_index_8bit data (left + i) = 0 →
      (render_tile_8bit buf data left width (some pal) blend).getD i 0 = buf.getD i 0) ∧
    (i < width → color_index_8bit data (left + i) ≠ 0 →
      (render_tile_8bit buf data left width (some pal) blend).getD i 0 =
        blend (buf.getD i 0) (palette_entry pal (color_index_8bit data (left + i)))) ∧
    (color_16bit data (left + i) &&& 0x8000 ≠ 0 →
      (render_tile_16bit buf data left width (some pal) blend).getD i 0 = buf.getD i 0) ∧
    (i < width → color_16bit data (left + i) &&& 0x8000 = 0 →
      (render_tile_16bit buf data left width (some pal) blend).getD i 0 =
        blend (buf.getD i 0) (color_16bit data (left + i))) := by
  refine ⟨?_, ?_, ?_, ?_, ?_, ?_⟩
  · intro h0
    rw [render_tile_4bit_getD buf data left width pal blend i hi]
    simp [h0]
  · intro hw h0
    rw [render_tile_4bit_getD buf data left width pal blend i hi]
    simp [hw, h0]
  · intro h0
    rw [render_tile_8bit_getD buf data left width pal blend i hi]
    simp [h0]
  · intro hw h0
    rw [render_tile_8bit_getD buf data left width pal blend i hi]
    simp [hw, h0]
  · intro h0
    rw [render_tile_16bit_getD buf data left width (some pal) blend i hi]
    simp [h0]
  · intro hw h0
    rw [render_tile_16bit_getD buf data left width (some pal) blend i hi]
    simp [hw, h0]

/-- Witness for C8: a concrete two-pixel row where pixel 0 of the 4-bit data
is transparent (low nibble 0) and is left unchanged, and a 16-bit source
pixel with the top bit set is skipped. -/
theorem rasterizer_transparency_witness :
    (render_tile_4bit [7, 9] [0x30] 0 2 (some ⟨⟨[0, 1, 2, 3]⟩, 0⟩) add_blend).getD 0 0 = 7 ∧
    (render_tile_16bit [7, 9] [0x00, 0x80, 0x00, 0x80] 0 2 none add_blend).getD 0 0 = 7 := by
  constructor
  · exact (rasterizer_transparency [7, 9] [0x30] 0 2 ⟨⟨[0, 1, 2, 3]⟩, 0⟩ add_blend 0
      (by decide)).1 (by decide)
  · exact (rasterizer_transparency [7, 9] [0x00, 0x80, 0x00, 0x80] 0 2 ⟨⟨[]⟩, 0⟩ add_blend 0
      (by decide)).2.2.2.2.1 (by decide)

/-- C10: when called without a palette, the 4-bit and 8-bit rasterizers
return immediately and the whole destination row is unchanged, regardless of
the tile data, bounds, and blend function. -/
theorem rasterizer_no_palette_noop (buf data : List Nat) (left width : Nat)
    (blend : Nat → Nat → Nat) :
    render_tile_4bit buf data left width none blend = buf ∧
    render_tile_8bit buf data left width none blend = buf :=
  ⟨rfl, rfl⟩

/-! ## ActorMotion (src/actor.rs, apply_move)

Positions are 16.8 fixed point: integer pixel `x`/`y` (`isize`, modelled as
`Int`) plus `subpixel_x`/`subpixel_y` (`u8`, modelled as `Nat`). Rust's
arithmetic shift `>> 8` on `isize` is Euclidean division by 256 and `& 0xff`
is the Euclidean remainder, which is how they are modelled here. The two
collision sweeps of the map are external collaborators, taken as function
parameters. The `sprites` list of `ActorInfo` plays no role in `apply_move`
and is omitted. The source's sequence of in-place mutations is unrolled into
the four combinations of the two sweep outcomes. -/

/-- `BoundingRect` from actor.rs. -/
structure BoundingRect where
  x : Int
  y : Int
  width : Int
  height : Int
deriving DecidableEq

/-- `ActorInfo` from actor.rs (without the sprite list). -/
structure ActorInfo where
  x : Int
  y : Int
  subpixel_x : Nat
  subpixel_y : Nat
  velocity_x : Int
  velocity_y : Int
  collision_bounds : Option BoundingRect
deriving DecidableEq

/-- The collision X offset: `collision_bounds.x`, or 0 for the default
1-by-1 box. -/
def collision_x_offset (a : ActorInfo) : Int :=
  match a.collision_bounds with
  | some collision_bounds => collision_bounds.x
  | none => 0

/-- The collision Y offset: `collision_bounds.y`, or 0 by default. -/
def collision_y_offset (a : ActorInfo) : Int :=
  match a.collision_bounds with
  | some collision_bounds => collision_bounds.y
  | none => 0

/-- The collision width: `collision_bounds.width`, or 1 by default. -/
def collision_width (a : ActorInfo) : Int :=
  match a.collision_bounds with
  | some collision_bounds => collision_bounds.width
  | none => 1

/-- The collision height: `collision_bounds.height`, or 1 by default. -/
def collision_height (a : ActorInfo) : Int :=
  match a.collision_bounds with
  | some collision_bounds => collision_bounds.height
  | none => 1

/-- The candidate fixed-point X after adding the velocity:
`(x << 8) + subpixel_x + velocity_x`. -/
def move_full_x (a : ActorInfo) : Int :=
  (a.x * 256 + (a.subpixel_x : Int)) + a.velocity_x

/-- The candidate fixed-point Y after adding the velocity. -/
def move_full_y (a : ActorInfo) : Int :=
  (a.y * 256 + (a.subpixel_y : Int)) + a.velocity_y

/-- The bounding rectangle built at the current integer position offset by
the collision bounds (actor.rs lines 69-74). -/
def initial_bounds (a : ActorInfo) : BoundingRect :=
  { x := a.x + collision_x_offset a, y := a.y + collision_y_offset a,
    width := collision_width a, height := collision_height a }

/-- The candidate X edge handed to the X sweep:
`new_x + collision_x_offset`. -/
def candidate_x (a : ActorInfo) : Int :=
  move_full_x a / 256 + collision_x_offset a

/-- The candidate Y edge handed to the Y sweep. -/
def candidate_y (a : ActorInfo) : Int :=
  move_full_y a / 256 + collision_y_offset a

/-- The integer X after the X sweep: the revised edge minus the collision
offset when the sweep reports a collision, the candidate X otherwise. -/
def resolved_new_x (sweep_x : BoundingRect → Int → Option Int) (a : ActorInfo) : Int :=
  match sweep_x (initial_bounds a) (candidate_x a) with
  | some revised_x => revised_x - collision_x_offset a
  | none => move_full_x a / 256

/-- The X-updated rectangle the Y sweep receives (actor.rs line 82):
the initial rectangle with its X replaced by the post-X-sweep value. -/
def y_sweep_bounds (sweep_x : BoundingRect → Int → Option Int) (a : ActorInfo) : BoundingRect :=
  { initial_bounds a with x := resolved_new_x sweep_x a + collision_x_offset a }

/-- Decomposition of a final fixed-point position back into the actor's
fields (actor.rs lines 90-93); velocities as resolved by the sweeps, the
collision bounds unchanged. -/
def move_result (a : ActorInfo) (full_x full_y velocity_x velocity_y : Int) : ActorInfo :=
  { x := full_x / 256, y := full_y / 256,
    subpixel_x := (full_x % 256).toNat, subpixel_y := (full_y % 256).toNat,
    velocity_x := velocity_x, velocity_y := velocity_y,
    collision_bounds := a.collision_bounds }

/-- `apply_move` from actor.rs: add the fixed-point velocity, sweep the X
axis against the map (clamping X and zeroing `velocity_x` on collision),
update the rectangle's X, sweep the Y axis the same way, and decompose the
final fixed-point position. The four branches are the four combinations of
the two sweep outcomes. -/
def apply_move (sweep_x sweep_y : BoundingRect → Int → Option Int) (a : ActorInfo) : ActorInfo :=
  let full_x := move_full_x a
  let full_y := move_full_y a
  let new_x := full_x / 256
  let new_y := full_y / 256
  let cxo := collision_x_offset a
  let cyo := collision_y_offset a
  let bounds := initial_bounds a
  match sweep_x bounds (new_x + cxo) with
  | some revised_x =>
    let new_x2 := revised_x - cxo
    let full_x2 := new_x2 * 256
    let bounds2 := { bounds with x := new_x2 + cxo }
    (match sweep_y bounds2 (new_y + cyo) with
     | some revised_y => move_result a full_x2 ((revised_y - cyo) * 256) 0 0
     | none => move_result a full_x2 full_y 0 a.velocity_y)
  | none =>
    let bounds2 := { bounds with x := new_x + cxo }
    (match sweep_y bounds2 (new_y + cyo) with
     | some revised_y => move_result a full_x ((revised_y - cyo) * 256) a.velocity_x 0
     | none => move_result a full_x full_y a.velocity_x a.velocity_y)

/-- Spec-comparison variant (not in the source): the same integration with
the two axis sweeps performed in the opposite order, Y resolved first and X
swept against the Y-updated rectangle. Used to show the source's X-before-Y
order is observable. -/
def apply_move_y_first (sweep_x sweep_y : BoundingRect → Int → Option Int) (a : ActorInfo) : ActorInfo :=
  let full_x := move_full_x a
  let full_y := move_full_y a
  let new_x := full_x / 256
  let new_y := full_y / 256
  let cxo := collision_x_offset a
  let cyo := collision_y_offset a
  let bounds := initial_bounds a
  match sweep_y bounds (new_y + cyo) with
  | some revised_y =>
    let new_y2 := revised_y - cyo
    let full_y2 := new_y2 * 256
    let bounds2 := { bounds with y := new_y2 + cyo }
    (match sweep_x bounds2 (new_x + cxo) with
     | some revised_x => move_result a ((revised_x - cxo) * 256) full_y2 0 0
     | none => move_result a full_x full_y2 a.velocity_x 0)
  | none =>
    let bounds2 := { bounds with y := new_y + cyo }
    (match sweep_x bounds2 (new_x + cxo) with
     | some revised_x => move_result a ((revised_x - cxo) * 256) full_y 0 a.velocity_y
     | none => move_result a full_x full_y a.velocity_x a.velocity_y)

/-- C4: whenever the X sweep returns a revised X below the candidate edge,
after `apply_move` the actor has `velocity_x = 0`, `subpixel_x = 0`, and `x`
equal to the revised edge minus the collision X offset: the fixed-point X is
reset exactly to the integer boundary and all residual X velocity is
cancelled. -/
theorem collision_x_resets (sweep_x sweep_y : BoundingRect → Int → Option Int)
    (a : ActorInfo) (revised : Int)
    (hsx : sweep_x (initial_bounds a) (candidate_x a) = some revised)
    (_hlt : revised < candidate_x a) :
    (apply_move sweep_x sweep_y a).velocity_x = 0 ∧
    (apply_move sweep_x sweep_y a).subpixel_x = 0 ∧
    (apply_move sweep_x sweep_y a).x = revised - collision_x_offset a := by
  simp only [candidate_x] at hsx
  simp only [apply_move, hsx]
  cases sweep_y { initial_bounds a with
      x := revised - collision_x_offset a + collision_x_offset a }
      (move_full_y a / 256 + collision_y_offset a) with
  | none =>
    refine ⟨rfl, ?_, ?_⟩
    · simp [move_result, Int.mul_emod_left]
    · simp [move_result]
  | some revised_y =>
    refine ⟨rfl, ?_, ?_⟩
    · simp [move_result, Int.mul_emod_left]
    · simp [move_result]

/-- Witness for C4: an actor at the origin moving two pixels right into a
sweep that clamps the edge back to 0. -/
theorem collision_x_resets_witness :
    (apply_move (fun _ _ => some 0) (fun _ _ => none)
      ⟨0, 0, 0, 0, 512, 0, none⟩).velocity_x = 0 ∧
    (apply_move (fun _ _ => some 0) (fun _ _ => none)
      ⟨0, 0, 0, 0, 512, 0, none⟩).subpixel_x = 0 ∧
    (apply_move (fun _ _ => some 0) (fun _ _ => none)
      ⟨0, 0, 0, 0, 512, 0, none⟩).x = 0 - collision_x_offset ⟨0, 0, 0, 0, 512, 0, none⟩ :=
  collision_x_resets (fun _ _ => some 0) (fun _ _ => none)
    ⟨0, 0, 0, 0, 512, 0, none⟩ 0 rfl (by decide)

/-- C5: the X axis is resolved strictly before the Y axis. First conjunct:
`apply_move` consults the Y sweep only at the X-updated rectangle (whose X is
the post-X-sweep value) and the candidate Y edge, so two Y sweeps agreeing
there give identical results. Second conjunct: a concrete corner scenario --
an actor moving right and down, the X sweep clamping X to 1, and a Y sweep
that obstructs exactly when the rectangle X is 1 -- where sweeping the axes
in the opposite order produces a different outcome. -/
theorem x_resolved_before_y :
    (∀ (sweep_x sweep_y sweep_y2 : BoundingRect → Int → Option Int) (a : ActorInfo),
      sweep_y (y_sweep_bounds sweep_x a) (candidate_y a) =
        sweep_y2 (y_sweep_bounds sweep_x a) (candidate_y a) →
      apply_move sweep_x sweep_y a = apply_move sweep_x sweep_y2 a) ∧
    apply_move (fun _ _ => some 1) (fun b _ => if b.x = 1 then some 0 else none)
        ⟨0, 0, 0, 0, 512, 256, none⟩ ≠
      apply_move_y_first (fun _ _ => some 1) (fun b _ => if b.x = 1 then some 0 else none)
        ⟨0, 0, 0, 0, 512, 256, none⟩ := by
  constructor
  · intro sweep_x sweep_y sweep_y2 a h
    simp only [y_sweep_bounds, resolved_new_x, candidate_x, candidate_y] at h
    simp only [apply_move]
    cases hsx : sweep_x (initial_bounds a)
        (move_full_x a / 256 + collision_x_offset a) with
    | some revised_x =>
      simp only [hsx] at h
      dsimp only
      rw [h]
    | none =>
      simp only [hsx] at h
      dsimp only
      rw [h]
  · decide

/-- Witness for C5: the Y-sweep-dependence conjunct instantiated with two
syntactically different Y sweeps that agree at the X-updated rectangle. -/
theorem x_resolved_before_y_witness :
    apply_move (fun _ _ => some 1) (fun b _ => if b.x = 1 then some 0 else none)
        ⟨0, 0, 0, 0, 512, 256, none⟩ =
      apply_move (fun _ _ => some 1) (fun _ _ => some 0)
        ⟨0, 0, 0, 0, 512, 256, none⟩ :=
  x_resolved_before_y.1 (fun _ _ => some 1)
    (fun b _ => if b.x = 1 then some 0 else none) (fun _ _ => some 0)
    ⟨0, 0, 0, 0, 512, 256, none⟩ (by decide)

/-- C6: when both sweeps report no obstruction, `apply_move` advances the
16.8 fixed-point position by the fixed-point velocity and leaves the
velocities unchanged; in particular an actor at x = 10, subpixel_x = 200
with velocity_x = 100 ends the tick at x = 11, subpixel_x = 44. -/
theorem unobstructed_advance :
    (∀ (sweep_x sweep_y : BoundingRect → Int → Option Int) (a : ActorInfo),
      sweep_x (initial_bounds a) (candidate_x a) = none →
      sweep_y (y_sweep_bounds sweep_x a) (candidate_y a) = none →
      (apply_move sweep_x sweep_y a).x = move_full_x a / 256 ∧
      (apply_move sweep_x sweep_y a).subpixel_x = (move_full_x a % 256).toNat ∧
      (apply_move sweep_x sweep_y a).y = move_full_y a / 256 ∧
      (apply_move sweep_x sweep_y a).subpixel_y = (move_full_y a % 256).toNat ∧
      (apply_move sweep_x sweep_y a).velocity_x = a.velocity_x ∧
      (apply_move sweep_x sweep_y a).velocity_y = a.velocity_y) ∧
    (apply_move (fun _ _ => none) (fun _ _ => none) ⟨10, 0, 200, 0, 100, 0, none⟩).x = 11 ∧
    (apply_move (fun _ _ => none) (fun _ _ => none)
      ⟨10, 0, 200, 0, 100, 0, none⟩).subpixel_x = 44 := by
  refine ⟨?_, by decide, by decide⟩
  intro sweep_x sweep_y a hsx hsy
  simp only [candidate_x] at hsx
  simp only [y_sweep_bounds, resolved_new_x, candidate_x, candidate_y, hsx] at hsy
  simp only [apply_move, hsx, hsy]
  exact ⟨rfl, rfl, rfl, rfl, rfl, rfl⟩

/-- Witness for C6: the general advance conjunct instantiated with sweeps
that always return `none` and the actor from the claim. -/
theorem unobstructed_advance_witness :
    (apply_move (fun _ _ => none) (fun _ _ => none)
        ⟨10, 0, 200, 0, 100, 0, none⟩).x =
      move_full_x ⟨10, 0, 200, 0, 100, 0, none⟩ / 256 :=
  (unobstructed_advance.1 (fun _ _ => none) (fun _ _ => none)
    ⟨10, 0, 200, 0, 100, 0, none⟩ rfl rfl).1

/-! ## ResolutionScaler (src/render.rs, compute_render_sizes, PixelPerfect)

Only the integer target-height selection loop is modelled; the subsequent
aspect-ratio clamp of `compute_render_size_for_height` is 32-bit float
arithmetic and outside this development. The source loop `for scale in 1..`
always terminates: once `window_height / scale` reaches 0 one of the two
break conditions fires, so a fuel of `window_height + 1` iterations is
exact. -/

/-- One step of the PixelPerfect scale search (render.rs lines 107-117):
starting from `target_height = min_height`, for each scale the candidate is
`window_height / scale`; stop with `min_height` once the candidate drops
below `min_height`, and stop with the candidate once it is at most
`max_height`. -/
def pp_loop (window_height min_height max_height : Nat) : Nat → Nat → Nat
  | _scale, 0 => min_height
  | scale, fuel + 1 =>
    let pre_scaled_height := window_height / scale
    if pre_scaled_height < min_height then min_height
    else if pre_scaled_height ≤ max_height then pre_scaled_height
    else pp_loop window_height min_height max_height (scale + 1) fuel

/-- The target height chosen by `compute_render_sizes` in PixelPerfect mode:
the scale search starting at scale 1. -/
def pixel_perfect_target_height (window_height min_height max_height : Nat) : Nat :=
  pp_loop window_height min_height max_height 1 (window_height + 1)

theorem pp_loop_reaches (wh mn mx s0 : Nat) (hin1 : mn ≤ wh / s0) (hin2 : wh / s0 ≤ mx) :
    ∀ fuel scale, 1 ≤ scale → scale ≤ s0 →
      (∀ s, s < s0 → scale ≤ s → mx < wh / s) →
      s0 - scale < fuel →
      pp_loop wh mn mx scale fuel = wh / s0 := by
  intro fuel
  induction fuel with
  | zero => intro scale _ _ _ hf; omega
  | succ n ih =>
    intro scale h1 hle hstrict hf
    simp only [pp_loop]
    rcases Nat.lt_or_ge scale s0 with hlt | hge
    · have hmx : mx < wh / scale := hstrict scale hlt (Nat.le_refl _)
      rw [if_neg (by omega), if_neg (by omega)]
      exact ih (scale + 1) (by omega) (by omega)
        (fun s hs hs2 => hstrict s hs (by omega)) (by omega)
    · have heq : scale = s0 := by omega
      subst heq
      rw [if_neg (by omega), if_pos hin2]

/-- C7: in PixelPerfect mode the target render height is
`window_height / scale` for the first (smallest) integer scale whose
candidate falls within `[min_height, max_height]`; concretely, for a window
height of 1000 and range [200, 300] the candidates at scales 1..5 are 1000,
500, 333, 250, 200, and scale 4 wins with target height 250. -/
theorem pixel_perfect_first_fit :
    (∀ wh mn mx s0 : Nat, 1 ≤ s0 → mn ≤ wh / s0 → wh / s0 ≤ mx →
      (∀ s, s < s0 → 1 ≤ s → ¬(mn ≤ wh / s ∧ wh / s ≤ mx)) →
      pixel_perfect_target_height wh mn mx = wh / s0) ∧
    1000 / 1 = 1000 ∧ 1000 / 2 = 500 ∧ 1000 / 3 = 333 ∧
    1000 / 4 = 250 ∧ 1000 / 5 = 200 ∧
    pixel_perfect_target_height 1000 200 300 = 250 := by
  refine ⟨?_, by decide, by decide, by decide, by decide, by decide, by decide⟩
  intro wh mn mx s0 hs0 hin1 hin2 hfirst
  have hstrict : ∀ s, s < s0 → 1 ≤ s → mx < wh / s := by
    intro s hs hs1
    have hmono : wh / s0 ≤ wh / s := Nat.div_le_div_left (by omega) hs1
    have := hfirst s hs hs1
    omega
  have hbound : s0 ≤ wh + 1 := by
    by_contra hgt
    have h1 : wh / (wh + 1) = 0 := Nat.div_eq_of_lt (by omega)
    have h2 : wh / s0 = 0 := Nat.div_eq_of_lt (by omega)
    have := hfirst (wh + 1) (by omega) (by omega)
    omega
  exact pp_loop_reaches wh mn mx s0 hin1 hin2 (wh + 1) 1 (Nat.le_refl _) hs0
    (fun s hs hs2 => hstrict s hs hs2) (by omega)

/-- Witness for C7: the first-fit conjunct instantiated at window height
1000, range [200, 300], first fitting scale 4. -/
theorem pixel_perfect_first_fit_witness :
    pixel_perfect_target_height 1000 200 300 = 1000 / 4 :=
  pixel_perfect_first_fit.1 1000 200 300 4 (by decide) (by decide) (by decide)
    (by decide)

/-! ## LayerCompositor scroll computation
(src/render.rs, render_layer_with_blending lines 315-324) -/

/-- The scroll bias of one axis (render.rs lines 321-322):
`0x40000000 - (0x40000000 % (tile_size * tile_count))`, where the extent
factors are the layer's tile size and tile count on that axis. -/
def scroll_bias (tile_size tile_count : Nat) : Int :=
  0x40000000 - ((0x40000000 % (tile_size * tile_count) : Nat) : Int)

/-- The effective scroll of one axis (render.rs lines 323-324): parallax and
auto-scroll applied with truncating (Rust `isize`) division by 0x100, plus
the bias. -/
def effective_scroll (scroll parallax auto_scroll frame : Int)
    (tile_size tile_count : Nat) : Int :=
  Int.tdiv (scroll * parallax + auto_scroll * frame) 0x100 +
    scroll_bias tile_size tile_count

/-- Counterexample to C1: for a layer whose total pixel extent is 3 pixels,
the bias the code adds is 1073741823, which is below 2^30, so it is not the
smallest multiple of the extent that is at least 2^30 (every such multiple
is at least 2^30); the effective scroll at zero inputs carries the same
value. -/
theorem effective_scroll_bias_counterexample :
    scroll_bias 1 3 = 1073741823 ∧
    scroll_bias 1 3 < 2 ^ 30 ∧
    effective_scroll 0 0 0 0 1 3 = 1073741823 := by
  refine ⟨by decide, by decide, by decide⟩

/-- C1 (amended): the effective scroll on each axis is
`(scroll * parallax + auto_scroll * frame) / 256` (truncating division) plus
a bias that is the largest multiple of the layer's total pixel extent
(`tile_size * tile_count`) that is at most 2^30, for every layer with a
positive extent and every scroll and frame input. -/
theorem effective_scroll_bias_spec (scroll parallax auto_scroll frame : Int)
    (tile_size tile_count : Nat) (hpos : 0 < tile_size * tile_count) :
    effective_scroll scroll parallax auto_scroll frame tile_size tile_count =
      Int.tdiv (scroll * parallax + auto_scroll * frame) 256 +
        scroll_bias tile_size tile_count ∧
    ((tile_size * tile_count : Nat) : Int) ∣ scroll_bias tile_size tile_count ∧
    scroll_bias tile_size tile_count ≤ 2 ^ 30 ∧
    ∀ m : Nat, tile_size * tile_count ∣ m → m ≤ 2 ^ 30 →
      (m : Int) ≤ scroll_bias tile_size tile_count := by
  have hmodle : 0x40000000 % (tile_size * tile_count) ≤ 0x40000000 :=
    Nat.mod_le _ _
  have hcast : scroll_bias tile_size tile_count =
      ((0x40000000 - 0x40000000 % (tile_size * tile_count) : Nat) : Int) := by
    simp only [scroll_bias]
    omega
  have hq : 0x40000000 - 0x40000000 % (tile_size * tile_count) =
      (tile_size * tile_count) * (0x40000000 / (tile_size * tile_count)) := by
    have := Nat.div_add_mod 0x40000000 (tile_size * tile_count)
    omega
  refine ⟨rfl, ?_, ?_, ?_⟩
  · rw [hcast, hq]
    exact_mod_cast Int.natCast_dvd_natCast.mpr
      (Dvd.intro _ rfl)
  · rw [hcast]
    have h1 : (0x40000000 - 0x40000000 % (tile_size * tile_count) : Nat) ≤ 2 ^ 30 := by
      omega
    exact_mod_cast h1
  · intro m hdvd hle
    obtain ⟨k, hk⟩ := hdvd
    rw [hcast, hq]
    have hk2 : k ≤ 0x40000000 / (tile_size * tile_count) := by
      rw [Nat.le_div_iff_mul_le hpos]
      have : k * (tile_size * tile_count) = m := by rw [hk]; ring
      omega
    have h2 : m ≤ (tile_size * tile_count) * (0x40000000 / (tile_size * tile_count)) := by
      rw [hk]
      exact Nat.mul_le_mul_left _ hk2
    exact_mod_cast h2

/-- Witness for C1 (amended): a layer of 16-pixel tiles, 32 tiles wide,
whose extent 512 divides 2^30 exactly, so the bias is 2^30 itself. -/
theorem effective_scroll_bias_spec_witness :
    ((16 * 32 : Nat) : Int) ∣ scroll_bias 16 32 ∧ scroll_bias 16 32 ≤ 2 ^ 30 :=
  ⟨(effective_scroll_bias_spec 0 0 0 0 16 32 (by decide)).2.1,
   (effective_scroll_bias_spec 0 0 0 0 16 32 (by decide)).2.2.1⟩
